import Mathlib

/-!
# ShaderHub: shader lifecycle manager

A shallow embedding of `src/main.cpp` (a live-reloading fragment shader runner)
and proofs of the properties its specification states.

* `std::string` is a list of characters (`Str`); `std::string::npos` is `none`.
* `fs::path` is the list of its components (`Path`).
* The GPU backend and the file system are external: what they answer is the
  record `World`, what the program owns on the backend is `GLState`.
-/

set_option maxRecDepth 100000

namespace ShaderHub

/-! ## Text -/

/-- A `std::string`: a sequence of characters. -/
abbrev Str := List Char

/-- Search of `std::string::find` from position `pos`: the lowest position at
which `pat` occurs, `none` for `npos`. -/
def findFrom (pat : Str) : Str → Nat → Option Nat
  | [], pos => if pat.isPrefixOf [] then some pos else none
  | c :: s, pos => if pat.isPrefixOf (c :: s) then some pos else findFrom pat s (pos + 1)

/-- The call `s.find(pat)` of `std::string`. -/
def find (s pat : Str) : Option Nat := findFrom pat s 0

/-- Number of positions of `s` at which `pat` occurs. -/
def countOcc (pat : Str) : Str → Nat
  | [] => if pat.isPrefixOf [] then 1 else 0
  | c :: s => (if pat.isPrefixOf (c :: s) then 1 else 0) + countOcc pat s

/-- What a C API reads from `s.c_str()`: the characters before the first NUL. -/
def cStr (s : Str) : Str := s.takeWhile (fun c => c != Char.ofNat 0)

/-! ## Program Transformer (`maybeWrapFragment`, `createProgramFromFragmentFile`) -/

/-- The constant `VERT_SRC`: the full-screen triangle vertex stage. -/
def VERT_SRC : Str :=
  ("\n#version 330 core\nconst vec2 verts[3] = vec2[3](\n    vec2(-1.0, -1.0),\n" ++
   "    vec2( 3.0, -1.0),\n    vec2(-1.0,  3.0)\n);\nvoid main() \x7b\n" ++
   "    gl_Position = vec4(verts[gl_VertexID], 0.0, 1.0);\n\x7d\n").toList

/-- The local constant `header` of `createProgramFromFragmentFile`. -/
def header : Str :=
  ("\n#version 330 core\nuniform vec3  iResolution;\nuniform float iTime;\n" ++
   "uniform int   iFrame;\nuniform vec4  iMouse;\n").toList

/-- The text `maybeWrapFragment` appends: an entry point calling `mainImage`. -/
def wrapper : Str :=
  ("\n\n#ifndef SHADERS_HUB_MAIN_DEFINED\nout vec4 fragColor;\nvoid main()\x7b\n" ++
   "    mainImage(fragColor, gl_FragCoord.xy);\n\x7d\n#endif\n").toList

/-- The token `iResolution`. -/
def tokResolution : Str := "iResolution".toList

/-- The token `iTime`. -/
def tokTime : Str := "iTime".toList

/-- The token `void main(` that marks an entry-point definition. -/
def tokMain : Str := "void main(".toList

/-- The function `maybeWrapFragment`: a source that defines `main` is used as
is, any other gets the wrapper appended. -/
def maybeWrapFragment (src : Str) : Str :=
  if find src tokMain ≠ none then src
  else src ++ wrapper

/-- The header step of `createProgramFromFragmentFile`: the header is put in
front when `iResolution` or `iTime` is not found. -/
def injectHeader (fragSource : Str) : Str :=
  if find fragSource tokResolution = none ∨ find fragSource tokTime = none then
    header ++ fragSource
  else fragSource

/-- The value of `fragSource` that `createProgramFromFragmentFile` passes to the
fragment compile: header step, then `maybeWrapFragment`. -/
def transformFragment (raw : Str) : Str :=
  maybeWrapFragment (injectHeader raw)

/-- Sample text with an own declaration of `iTime` and no `iResolution`. -/
def dupTime : Str := "uniform float iTime;\n".toList

/-- Sample text that uses both `iResolution` and `iTime`. -/
def bothSample : Str := "uniform vec3 iResolution; uniform float iTime;\n".toList

/-- Sample text that defines its own entry point. -/
def entrySample : Str := "void main()\x7b\x7d".toList

/-- Sample text in the `mainImage` convention, without an entry point. -/
def imageSample : Str :=
  "void mainImage(out vec4 c, in vec2 p)\x7b c = vec4(1.0); \x7d".toList

/-! ## Shader Set Resolver (`collectShaderFiles`) -/

/-- An `fs::path`: the sequence of its components. The `operator<` of
`fs::path` compares two paths component by component and each component as a
string; on `Path` this is the lexicographic order `<` of lists. -/
abbrev Path := List Str

/-- Search of `std::string::rfind` for a character: the highest position at
which `c` occurs, counted from `pos`. -/
def rfindFrom (c : Char) : Str → Nat → Option Nat
  | [], _ => none
  | x :: s, pos =>
    match rfindFrom c s (pos + 1) with
    | some i => some i
    | none => if x = c then some pos else none

/-- The call `s.rfind(c)` of `std::string`. -/
def rfind (s : Str) (c : Char) : Option Nat := rfindFrom c s 0

/-- The call `p.filename()`: the last component. -/
def filename (p : Path) : Str := p.getLastD []

/-- The call `p.extension()`: the part of the filename from its rightmost
period on; empty for the names `.` and `..`, when there is no period, and when
the only period is the first character. -/
def extension (p : Path) : Str :=
  let f := filename p
  if f = ".".toList ∨ f = "..".toList then []
  else
    match rfind f '.' with
    | none => []
    | some 0 => []
    | some (pos + 1) => f.drop (pos + 1)

/-- One entry produced by `fs::directory_iterator`. -/
structure DirEntry where
  /-- The value of `e.path()`. -/
  path : Path
  /-- The value of `e.is_regular_file()`. -/
  isRegularFile : Bool
deriving DecidableEq

/-- What the file system reports for a path. -/
inductive FileStatus
  | regular
  | directory (entries : List DirEntry)
  | other
deriving DecidableEq

/-- The test `ext == ".frag" || ext == ".glsl" || ext == ".fs"`. -/
def isShaderExtension (ext : Str) : Bool :=
  decide (ext = ".frag".toList) || decide (ext = ".glsl".toList) || decide (ext = ".fs".toList)

/-- The loop of `collectShaderFiles` over the directory entries, `out` being
the vector filled so far. -/
def scanEntries : List DirEntry → List Path → List Path
  | [], out => out
  | e :: es, out =>
    if !e.isRegularFile then scanEntries es out
    else if isShaderExtension (extension e.path) then scanEntries es (out ++ [e.path])
    else scanEntries es out

/-- The call `std::sort(out.begin(), out.end())` on paths. The order of paths is
total, so the sorted arrangement is the same for every sorting algorithm. -/
def sortPaths (out : List Path) : List Path := out.insertionSort (· ≤ ·)

/-- The function `collectShaderFiles`. -/
def collectShaderFiles (status : Path → FileStatus) (input : Path) : List Path :=
  match status input with
  | FileStatus.regular => [input]
  | FileStatus.directory entries => sortPaths (scanEntries entries [])
  | FileStatus.other => []

/-! ## GPU backend -/

/-- An object name of the backend; `0` is the null handle. -/
abbrev GLuint := Nat

/-- A uniform location. -/
abbrev GLint := Int

/-- The stage constants `GL_VERTEX_SHADER` and `GL_FRAGMENT_SHADER`. -/
inductive ShaderType
  | vertex
  | fragment
deriving DecidableEq

/-- The objects the backend holds for the program: shader-stage objects and
program objects that were created and not deleted since, and the program bound
by `glUseProgram`. An object counts as deleted from the call of `glDeleteShader`
or `glDeleteProgram` on it, also when the driver defers the release of an
attached stage or of the bound program. -/
structure GLState where
  shaders : List GLuint
  programs : List GLuint
  current : GLuint
deriving DecidableEq

/-- A line group written to `std::cout` or `std::cerr`. -/
inductive Output
  /-- Line `[IO] Failed to read <path>`. -/
  | ioFailed (p : Path)
  /-- Line `[Shader compile error]` followed by the backend log. -/
  | shaderCompileError (log : Str)
  /-- Line `[Program link error]` followed by the backend log. -/
  | programLinkError (log : Str)
  /-- Line `Loaded: <path>` and the controls line. -/
  | loaded (p : Path)
  /-- Line `[Reload] <path>`. -/
  | reloaded (p : Path)
  /-- Line `[Reload] Keeping previous program due to errors.` -/
  | keepingPrevious
deriving DecidableEq

/-- Everything outside the process that the code changes: backend objects and
console output. -/
structure Sys where
  gl : GLState
  out : List Output
deriving DecidableEq

/-- The state of a fresh context with nothing printed. -/
def Sys.init : Sys := { gl := { shaders := [], programs := [], current := 0 }, out := [] }

/-- What the outside world answers: the file system and the GPU driver. -/
structure World where
  /-- File type of a path (`fs::is_regular_file`, `fs::is_directory`, entries). -/
  status : Path → FileStatus
  /-- Content of a file, `none` when it cannot be opened. -/
  readFile : Path → Option Str
  /-- Result of `fs::last_write_time`, `none` when the error code is set. -/
  lastWriteTime : Path → Option Int
  /-- Name the driver offers for the next object to create. -/
  newName : GLState → GLuint
  /-- Value of `GL_COMPILE_STATUS` for a stage and its source. -/
  compileStatus : ShaderType → Str → Bool
  /-- Value of `GL_LINK_STATUS` for the two attached stage objects. -/
  linkStatus : GLuint → GLuint → Bool
  /-- Text of `glGetShaderInfoLog`. -/
  shaderInfoLog : ShaderType → Str → Str
  /-- Text of `glGetProgramInfoLog`. -/
  programInfoLog : Str

/-- The call `glCreateShader`: a nonzero name not in use, or `0` on failure.
Whatever name the driver offers, one that is `0` or in use counts as failure,
so every `World` respects that a new object never takes a name in use. -/
def glCreateShader (w : World) (g : GLState) : GLuint × GLState :=
  let n := w.newName g
  if n = 0 ∨ n ∈ g.shaders ∨ n ∈ g.programs then (0, g)
  else (n, { g with shaders := n :: g.shaders })

/-- The call `glCreateProgram`: a nonzero name not in use, or `0` on failure
(stage and program objects share one name space). -/
def glCreateProgram (w : World) (g : GLState) : GLuint × GLState :=
  let n := w.newName g
  if n = 0 ∨ n ∈ g.shaders ∨ n ∈ g.programs then (0, g)
  else (n, { g with programs := n :: g.programs })

/-- The call `glDeleteShader`; the name `0` is ignored. -/
def glDeleteShader (g : GLState) (s : GLuint) : GLState :=
  if s = 0 then g else { g with shaders := g.shaders.filter (fun x => x ≠ s) }

/-- The call `glDeleteProgram`; the name `0` is ignored. -/
def glDeleteProgram (g : GLState) (p : GLuint) : GLState :=
  if p = 0 then g else { g with programs := g.programs.filter (fun x => x ≠ p) }

/-- The call `glUseProgram`. -/
def glUseProgram (g : GLState) (p : GLuint) : GLState := { g with current := p }

/-! ## Compile/Link Pipeline (`compile`, `link`, `createProgramFromFragmentFile`) -/

/-- The function `compile`: create a stage object and compile `src`; on failure
report the log, delete the object and return `0`. -/
def compile (w : World) (type : ShaderType) (src : Str) (s0 : Sys) : GLuint × Sys :=
  let (s, g1) := glCreateShader w s0.gl
  let ok := decide (s ≠ 0) && w.compileStatus type src
  if !ok then
    (0, { gl := glDeleteShader g1 s,
          out := s0.out ++ [Output.shaderCompileError (w.shaderInfoLog type src)] })
  else (s, { s0 with gl := g1 })

/-- The function `link`. With a null stage handle it returns `0` at once.
Otherwise it creates a program, links, on failure reports and deletes the
program, then deletes both stage objects. (Attach and detach do not change
which objects exist.) -/
def link (w : World) (vs fs : GLuint) (s0 : Sys) : GLuint × Sys :=
  if vs = 0 ∨ fs = 0 then (0, s0)
  else
    let (p, g1) := glCreateProgram w s0.gl
    let ok := decide (p ≠ 0) && w.linkStatus vs fs
    let r : GLuint × Sys :=
      if !ok then
        (0, { gl := glDeleteProgram g1 p,
              out := s0.out ++ [Output.programLinkError w.programInfoLog] })
      else (p, { s0 with gl := g1 })
    (r.1, { r.2 with gl := glDeleteShader (glDeleteShader r.2.gl vs) fs })

/-- The function `createProgramFromFragmentFile`; returns `0` if reading,
compiling or linking fails. -/
def createProgramFromFragmentFile (w : World) (fragPath : Path) (s0 : Sys) : GLuint × Sys :=
  match w.readFile fragPath with
  | none => (0, { s0 with out := s0.out ++ [Output.ioFailed fragPath] })
  | some raw =>
    let fragSource := maybeWrapFragment (injectHeader raw)
    let r1 := compile w ShaderType.vertex VERT_SRC s0
    let r2 := compile w ShaderType.fragment (cStr fragSource) r1.2
    link w r1.1 r2.1 r2.2

/-! ## Hot-Reload Controller (`main`) -/

/-- The uniform name `iFrame`. -/
def tokFrame : Str := "iFrame".toList

/-- The uniform name `iMouse`. -/
def tokMouse : Str := "iMouse".toList

/-- The local state of `main` that the control loop uses and changes. -/
structure Controller where
  shaderFiles : List Path
  currentIndex : Nat
  currentFrag : Path
  lastWrite : Int
  prog : GLuint
  locRes : GLint
  locTime : GLint
  locFrame : GLint
  locMouse : GLint
  frame : Nat
  sys : Sys
deriving DecidableEq

/-- The value `fs::file_time_type::min()`. -/
def timeMin : Int := -(2 ^ 63)

/-- The call `fs::last_write_time(p, ec)`: the minimum time on error. -/
def lastWriteOrMin (w : World) (p : Path) : Int := (w.lastWriteTime p).getD timeMin

/-- The lambda `reloadProgram`. The parameter `loc` is `glGetUniformLocation`. -/
def reloadProgram (loc : GLuint → Str → GLint) (w : World) (c : Controller) : Controller :=
  let r := createProgramFromFragmentFile w c.currentFrag c.sys
  let newProg := r.1
  if newProg ≠ 0 then
    { c with
      prog := newProg
      locRes := loc newProg tokResolution
      locTime := loc newProg tokTime
      locFrame := loc newProg tokFrame
      locMouse := loc newProg tokMouse
      sys := { gl := glDeleteProgram r.2.gl c.prog,
               out := r.2.out ++ [Output.reloaded c.currentFrag] } }
  else
    { c with sys := { r.2 with out := r.2.out ++ [Output.keepingPrevious] } }

/-- The start of `main` up to the control loop: `none` when the process exits
(no shader file, or the initial build fails). -/
def startup (loc : GLuint → Str → GLint) (w : World) (target : Path) : Option Controller :=
  let shaderFiles := collectShaderFiles w.status target
  if shaderFiles.isEmpty then none
  else
    let currentFrag := shaderFiles.getD 0 []
    let r := createProgramFromFragmentFile w currentFrag Sys.init
    let prog := r.1
    if prog = 0 then none
    else
      some { shaderFiles := shaderFiles
             currentIndex := 0
             currentFrag := currentFrag
             lastWrite := lastWriteOrMin w currentFrag
             prog := prog
             locRes := loc prog tokResolution
             locTime := loc prog tokTime
             locFrame := loc prog tokFrame
             locMouse := loc prog tokMouse
             frame := 0
             sys := { r.2 with out := r.2.out ++ [Output.loaded currentFrag] } }

/-- Arithmetic of `size_t`: values modulo `2 ^ 64`. -/
def sizeT (n : Nat) : Nat := n % 2 ^ 64

/-- The index `(currentIndex + shaderFiles.size() - 1) % shaderFiles.size()`. -/
def prevIndex (currentIndex size : Nat) : Nat :=
  sizeT (sizeT (currentIndex + size) + 2 ^ 64 - 1) % size

/-- The index `(currentIndex + 1) % shaderFiles.size()`. -/
def nextIndex (currentIndex size : Nat) : Nat :=
  sizeT (currentIndex + 1) % size

/-- The body shared by the two switch keys: when `next` differs from the current
index, select it, take its write time and reload. -/
def selectShader (loc : GLuint → Str → GLint) (w : World) (next : Nat) (c : Controller) :
    Controller :=
  if next ≠ c.currentIndex then
    let currentFrag := c.shaderFiles.getD next []
    reloadProgram loc w
      { c with
        currentIndex := next
        currentFrag := currentFrag
        lastWrite := lastWriteOrMin w currentFrag }
  else c

/-- The key `[` (or keypad 4): switch to the previous shader. -/
def switchPrev (loc : GLuint → Str → GLint) (w : World) (c : Controller) : Controller :=
  selectShader loc w (prevIndex c.currentIndex c.shaderFiles.length) c

/-- The key `]` (or keypad 6): switch to the next shader. -/
def switchNext (loc : GLuint → Str → GLint) (w : World) (c : Controller) : Controller :=
  selectShader loc w (nextIndex c.currentIndex c.shaderFiles.length) c

/-- The hot reload of the loop: reload when the write time can be read and
differs from the stored one. -/
def autoReload (loc : GLuint → Str → GLint) (w : World) (c : Controller) : Controller :=
  match w.lastWriteTime c.currentFrag with
  | some curWrite =>
    if curWrite ≠ c.lastWrite then reloadProgram loc w { c with lastWrite := curWrite }
    else c
  | none => c

/-- The drawing part of the loop: bind the active program, draw, count the
frame. (The uniform values are floating point and are left out.) -/
def renderFrame (c : Controller) : Controller :=
  { c with
    sys := { c.sys with gl := glUseProgram c.sys.gl c.prog }
    frame := c.frame + 1 }

/-- One transition of the control loop. -/
inductive Transition
  | prev (w : World)
  | next (w : World)
  | forced (w : World)
  | auto (w : World)
  | render

/-- The effect of one transition. -/
def applyTransition (loc : GLuint → Str → GLint) (c : Controller) : Transition → Controller
  | Transition.prev w => switchPrev loc w c
  | Transition.next w => switchNext loc w c
  | Transition.forced w => reloadProgram loc w c
  | Transition.auto w => autoReload loc w c
  | Transition.render => renderFrame c

/-- The state after a finite sequence of transitions. -/
def run (loc : GLuint → Str → GLint) (c : Controller) (ts : List Transition) : Controller :=
  ts.foldl (applyTransition loc) c

/-- What one iteration of the loop reads: the keys, and the world at each of
the four places where it is consulted. -/
structure TickInput where
  keyPrev : Bool
  keyNext : Bool
  keyReload : Bool
  wPrev : World
  wNext : World
  wReload : World
  wAuto : World

/-- One iteration of the `while` loop of `main`. -/
def tick (loc : GLuint → Str → GLint) (inp : TickInput) (c : Controller) : Controller :=
  let c1 := if inp.keyPrev then switchPrev loc inp.wPrev c else c
  let c2 := if inp.keyNext then switchNext loc inp.wNext c1 else c1
  let c3 := if inp.keyReload then reloadProgram loc inp.wReload c2 else c2
  let c4 := autoReload loc inp.wAuto c3
  renderFrame c4

/-- The state after a finite sequence of loop iterations. -/
def runTicks (loc : GLuint → Str → GLint) (c : Controller) (inputs : List TickInput) :
    Controller :=
  inputs.foldl (fun c inp => tick loc inp c) c

/-- The stored locations are those of the active program. -/
def LocsConsistent (loc : GLuint → Str → GLint) (c : Controller) : Prop :=
  c.locRes = loc c.prog tokResolution ∧ c.locTime = loc c.prog tokTime ∧
  c.locFrame = loc c.prog tokFrame ∧ c.locMouse = loc c.prog tokMouse

instance (loc : GLuint → Str → GLint) (c : Controller) : Decidable (LocsConsistent loc c) :=
  inferInstanceAs (Decidable (c.locRes = loc c.prog tokResolution ∧
    c.locTime = loc c.prog tokTime ∧ c.locFrame = loc c.prog tokFrame ∧
    c.locMouse = loc c.prog tokMouse))

/-- The active handle is a non-null, existing program object. -/
def Loaded (c : Controller) : Prop :=
  c.prog ≠ 0 ∧ c.prog ∈ c.sys.gl.programs

instance (c : Controller) : Decidable (Loaded c) :=
  inferInstanceAs (Decidable (c.prog ≠ 0 ∧ c.prog ∈ c.sys.gl.programs))

/-- The transitions one loop iteration performs, in order. -/
def tickTransitions (inp : TickInput) : List Transition :=
  (if inp.keyPrev then [Transition.prev inp.wPrev] else []) ++
  (if inp.keyNext then [Transition.next inp.wNext] else []) ++
  (if inp.keyReload then [Transition.forced inp.wReload] else []) ++
  [Transition.auto inp.wAuto, Transition.render]

/-! ## Sample world -/

/-- The directory of the sample. -/
def demoDir : Path := ["shaders".toList]

/-- The path `shaders/a.glsl`. -/
def pathA : Path := ["shaders".toList, "a.glsl".toList]

/-- The path `shaders/b.frag`. -/
def pathB : Path := ["shaders".toList, "b.frag".toList]

/-- The path `shaders/c.txt`. -/
def pathC : Path := ["shaders".toList, "c.txt".toList]

/-- The directory listing `b.frag`, `a.glsl`, `c.txt`. -/
def demoListing : List DirEntry :=
  [{ path := pathB, isRegularFile := true }, { path := pathA, isRegularFile := true },
   { path := pathC, isRegularFile := true }]

/-- A text the sample compiler rejects. -/
def brokenSource : Str := "#error broken\n".toList

/-- A driver that names a new object one above the highest name in use. -/
def demoNewName (g : GLState) : GLuint := (g.shaders ++ g.programs).foldr max 0 + 1

/-- A world with the sample directory, `a.glsl` valid and `b.frag` broken. -/
def demoWorld : World where
  status := fun p =>
    if p = demoDir then FileStatus.directory demoListing
    else if p = pathA ∨ p = pathB ∨ p = pathC then FileStatus.regular
    else FileStatus.other
  readFile := fun p =>
    if p = pathA then some imageSample
    else if p = pathB then some brokenSource
    else none
  lastWriteTime := fun _ => some 0
  newName := demoNewName
  compileStatus := fun _ src => decide (find src "#error".toList = none)
  linkStatus := fun _ _ => true
  shaderInfoLog := fun _ _ => "error directive".toList
  programInfoLog := []

/-- The sample world after `a.glsl` was overwritten with a broken text. -/
def brokenWorld : World :=
  { demoWorld with
    readFile := fun p => if p = pathA ∨ p = pathB then some brokenSource else none
    lastWriteTime := fun _ => some 1 }

/-- Sample uniform locations. -/
def demoLoc (p : GLuint) (name : Str) : GLint :=
  if name = tokResolution then 0
  else if name = tokTime then 1
  else if name = tokFrame then 2
  else if name = tokMouse then (p : Int) + 3
  else -1

/-- The controller after the start on the sample world. -/
def demoController : Controller where
  shaderFiles := [pathA, pathB]
  currentIndex := 0
  currentFrag := pathA
  lastWrite := 0
  prog := 3
  locRes := 0
  locTime := 1
  locFrame := 2
  locMouse := 6
  frame := 0
  sys := { gl := { shaders := [], programs := [3], current := 0 },
           out := [Output.loaded pathA] }

/-! ## Facts about text search -/

theorem findFrom_eq_none_iff (pat s : Str) (pos : Nat) :
    findFrom pat s pos = none ↔ ¬ pat <:+: s := by
  induction s generalizing pos with
  | nil =>
    cases pat with
    | nil => simp [findFrom]
    | cons a t => simp [findFrom, List.isPrefixOf]
  | cons c s ih =>
    unfold findFrom
    by_cases h : pat.isPrefixOf (c :: s) = true
    · have hp : pat <+: c :: s := List.isPrefixOf_iff_prefix.mp h
      simp [h, hp.isInfix]
    · have hp : ¬ pat <+: c :: s := fun hp => h (List.isPrefixOf_iff_prefix.mpr hp)
      rw [if_neg h, ih, List.infix_cons_iff]
      tauto

theorem find_eq_none_iff (s pat : Str) : find s pat = none ↔ ¬ pat <:+: s :=
  findFrom_eq_none_iff pat s 0

theorem find_ne_none_iff (s pat : Str) : find s pat ≠ none ↔ pat <:+: s := by
  rw [Ne, find_eq_none_iff, not_not]

/-! ## Occurrences across a separator -/

theorem prefix_append_cons_iff {pat a b : Str} {c : Char} (hc : c ∉ pat) :
    pat <+: a ++ c :: b ↔ pat <+: a := by
  constructor
  · intro h
    rcases List.prefix_or_prefix_of_prefix h (List.prefix_append a (c :: b)) with h1 | h1
    · exact h1
    · obtain ⟨t, rfl⟩ := h1
      rw [List.prefix_append_right_inj] at h
      cases t with
      | nil => simp
      | cons x t =>
        have hx : x = c := by
          obtain ⟨r, hr⟩ := h
          simp at hr
          exact hr.1
        exact absurd (by simp [hx]) hc
  · intro h
    exact h.trans (List.prefix_append a (c :: b))

theorem countOcc_nil {pat : Str} (hp : pat ≠ []) : countOcc pat [] = 0 := by
  cases pat with
  | nil => exact absurd rfl hp
  | cons x t => simp [countOcc, List.isPrefixOf]

theorem isPrefixOf_congr {pat s t : Str} (h : pat <+: s ↔ pat <+: t) :
    pat.isPrefixOf s = pat.isPrefixOf t := by
  rw [Bool.eq_iff_iff, List.isPrefixOf_iff_prefix, List.isPrefixOf_iff_prefix]
  exact h

theorem countOcc_append_cons {pat : Str} {c : Char} (hc : c ∉ pat) (hp : pat ≠ [])
    (a b : Str) : countOcc pat (a ++ c :: b) = countOcc pat a + countOcc pat b := by
  induction a with
  | nil =>
    have h : pat.isPrefixOf (c :: b) = false := by
      rw [Bool.eq_false_iff]
      intro h
      have h2 : pat <+: [] ++ c :: b := List.isPrefixOf_iff_prefix.mp h
      rw [prefix_append_cons_iff hc, List.prefix_nil] at h2
      exact hp h2
    simp [countOcc, h, countOcc_nil hp, hp]
  | cons x a ih =>
    have h : pat.isPrefixOf (x :: a ++ c :: b) = pat.isPrefixOf (x :: a) :=
      isPrefixOf_congr (prefix_append_cons_iff hc)
    have e : countOcc pat (x :: a ++ c :: b) =
        (if pat.isPrefixOf (x :: a ++ c :: b) then 1 else 0) + countOcc pat (a ++ c :: b) := rfl
    have e2 : countOcc pat (x :: a) =
        (if pat.isPrefixOf (x :: a) then 1 else 0) + countOcc pat a := rfl
    rw [e, e2, h, ih]
    omega

theorem countOcc_eq_zero_iff (pat s : Str) : countOcc pat s = 0 ↔ ¬ pat <:+: s := by
  induction s with
  | nil =>
    cases pat with
    | nil => simp [countOcc]
    | cons a t => simp [countOcc, List.isPrefixOf]
  | cons c s ih =>
    by_cases h : pat.isPrefixOf (c :: s) = true
    · have hp : pat <+: c :: s := List.isPrefixOf_iff_prefix.mp h
      simp [countOcc, h, hp.isInfix]
    · have hp : ¬ pat <+: c :: s := fun hp => h (List.isPrefixOf_iff_prefix.mpr hp)
      simp only [countOcc, if_neg h, Nat.zero_add, ih, List.infix_cons_iff]
      tauto

theorem infix_append_cons_iff {pat : Str} {c : Char} (hc : c ∉ pat) (hp : pat ≠ [])
    (a b : Str) : pat <:+: a ++ c :: b ↔ pat <:+: a ∨ pat <:+: b := by
  have h := countOcc_append_cons hc hp a b
  have h1 := countOcc_eq_zero_iff pat (a ++ c :: b)
  have h2 := countOcc_eq_zero_iff pat a
  have h3 := countOcc_eq_zero_iff pat b
  constructor
  · intro hi
    by_contra hn
    push_neg at hn
    have : countOcc pat (a ++ c :: b) = 0 := by rw [h, h2.mpr hn.1, h3.mpr hn.2]
    exact h1.mp this hi
  · intro hi
    by_contra hn
    have h0 := h1.mpr hn
    rw [h] at h0
    rcases hi with hi | hi
    · exact h2.mp (by omega) hi
    · exact h3.mp (by omega) hi

/-! ## Facts about the fixed texts -/

theorem newline_not_mem_tokMain : Char.ofNat 10 ∉ tokMain := by decide

theorem tokMain_ne_nil : tokMain ≠ [] := by decide

theorem header_eq : header = header.dropLast ++ [Char.ofNat 10] := by decide

theorem wrapper_eq : wrapper = Char.ofNat 10 :: wrapper.tail := by decide

theorem countOcc_header_init : countOcc tokMain header.dropLast = 0 := by decide

theorem countOcc_wrapper_tail : countOcc tokMain wrapper.tail = 1 := by decide

theorem header_rotation :
    (List.range 111).all (fun k =>
      !(header ++ header.take k).isPrefixOf (header.take k ++ wrapper)) = true := by
  decide

theorem header_length : header.length = 111 := by decide

theorem wrapper_declares_output : "out vec4 fragColor;".toList <:+: wrapper := by decide

theorem wrapper_calls_mainImage :
    "mainImage(fragColor, gl_FragCoord.xy);".toList <:+: wrapper := by decide

theorem countOcc_header_append (raw : Str) :
    countOcc tokMain (header ++ raw) = countOcc tokMain raw := by
  have h : header ++ raw = header.dropLast ++ Char.ofNat 10 :: raw := by
    conv_lhs => rw [header_eq]
    simp
  rw [h, countOcc_append_cons newline_not_mem_tokMain tokMain_ne_nil, countOcc_header_init,
    Nat.zero_add]

theorem countOcc_append_wrapper (s : Str) :
    countOcc tokMain (s ++ wrapper) = countOcc tokMain s + 1 := by
  rw [wrapper_eq, countOcc_append_cons newline_not_mem_tokMain tokMain_ne_nil,
    countOcc_wrapper_tail]

theorem infix_header_append_iff (raw : Str) :
    tokMain <:+: header ++ raw ↔ tokMain <:+: raw := by
  have h1 := countOcc_eq_zero_iff tokMain (header ++ raw)
  have h2 := countOcc_eq_zero_iff tokMain raw
  rw [countOcc_header_append] at h1
  exact not_iff_not.mp (h1.symm.trans h2)

theorem infix_injectHeader_iff (raw : Str) :
    tokMain <:+: injectHeader raw ↔ tokMain <:+: raw := by
  unfold injectHeader
  split
  · exact infix_header_append_iff raw
  · exact Iff.rfl

theorem maybeWrapFragment_eq_self {src : Str} (h : tokMain <:+: src) :
    maybeWrapFragment src = src := by
  unfold maybeWrapFragment
  rw [if_pos ((find_ne_none_iff src tokMain).mpr h)]

theorem maybeWrapFragment_eq_append {src : Str} (h : ¬ tokMain <:+: src) :
    maybeWrapFragment src = src ++ wrapper := by
  unfold maybeWrapFragment
  rw [if_neg (fun hn => h ((find_ne_none_iff src tokMain).mp hn))]

theorem prefix_maybeWrapFragment (src : Str) : src <+: maybeWrapFragment src := by
  unfold maybeWrapFragment
  split
  · exact List.prefix_refl src
  · exact List.prefix_append src wrapper

theorem injectHeader_of_lacks {raw : Str}
    (h : ¬ tokResolution <:+: raw ∨ ¬ tokTime <:+: raw) : injectHeader raw = header ++ raw := by
  unfold injectHeader
  rw [if_pos]
  rcases h with h | h
  · exact Or.inl ((find_eq_none_iff _ _).mpr h)
  · exact Or.inr ((find_eq_none_iff _ _).mpr h)

theorem injectHeader_of_both {raw : Str}
    (h1 : tokResolution <:+: raw) (h2 : tokTime <:+: raw) : injectHeader raw = raw := by
  unfold injectHeader
  rw [if_neg]
  rintro (h | h)
  · exact (find_eq_none_iff _ _).mp h h1
  · exact (find_eq_none_iff _ _).mp h h2

/-- The header followed by a text is never a prefix of that text followed by
the wrapper. -/
theorem not_header_append_prefix_append_wrapper (raw : Str) :
    ¬ header ++ raw <+: raw ++ wrapper := by
  generalize h : raw.length = n
  induction n using Nat.strong_induction_on generalizing raw with
  | _ n ih =>
    intro hp
    have hh : header <+: raw ++ wrapper := (List.prefix_append header raw).trans hp
    have hr : raw <+: raw ++ wrapper := List.prefix_append raw wrapper
    by_cases hlen : header.length ≤ raw.length
    · obtain ⟨r1, rfl⟩ := List.prefix_of_prefix_length_le hh hr hlen
      rw [List.append_assoc, List.prefix_append_right_inj] at hp
      have hl : r1.length < n := by
        rw [← h, List.length_append, header_length]
        omega
      exact ih r1.length hl r1 rfl hp
    · have hlt : raw.length < 111 := by
        rw [header_length] at hlen
        omega
      have hrh : raw <+: header := List.prefix_of_prefix_length_le hr hh (by omega)
      have hk : raw = header.take raw.length := (List.prefix_iff_eq_take.mp hrh)
      have hall := header_rotation
      rw [List.all_eq_true] at hall
      have hk2 := hall raw.length (List.mem_range.mpr hlt)
      rw [← hk] at hk2
      simp only [Bool.not_eq_true', Bool.eq_false_iff, ne_eq] at hk2
      exact hk2 (List.isPrefixOf_iff_prefix.mpr hp)

theorem header_prefix_of_lacks (raw : Str)
    (h : ¬ tokResolution <:+: raw ∨ ¬ tokTime <:+: raw) :
    header ++ raw <+: transformFragment raw := by
  unfold transformFragment
  rw [injectHeader_of_lacks h]
  exact prefix_maybeWrapFragment _

theorem raw_prefix_of_both (raw : Str) (h1 : tokResolution <:+: raw) (h2 : tokTime <:+: raw) :
    raw <+: transformFragment raw := by
  unfold transformFragment
  rw [injectHeader_of_both h1 h2]
  exact prefix_maybeWrapFragment _

theorem not_header_prefix_of_both (raw : Str) (h1 : tokResolution <:+: raw)
    (h2 : tokTime <:+: raw) : ¬ header ++ raw <+: transformFragment raw := by
  intro hp
  unfold transformFragment at hp
  rw [injectHeader_of_both h1 h2] at hp
  by_cases hm : tokMain <:+: raw
  · rw [maybeWrapFragment_eq_self hm] at hp
    have := hp.length_le
    rw [List.length_append, header_length] at this
    omega
  · rw [maybeWrapFragment_eq_append hm] at hp
    exact not_header_append_prefix_append_wrapper raw hp

/-! ## Claims about the Program Transformer -/

/-- C4 (uniform header injection). For every raw text, the transformed text
starts with the header followed by the raw text exactly when the raw text
lacks `iResolution` or lacks `iTime`; when it has both, the transformed text
starts with the raw text; and a text lacking both yields a transformed text
that contains the header. -/
theorem header_injection_iff (raw : Str) :
    (header ++ raw <+: transformFragment raw ↔
      (¬ tokResolution <:+: raw ∨ ¬ tokTime <:+: raw)) ∧
    (tokResolution <:+: raw ∧ tokTime <:+: raw → raw <+: transformFragment raw) ∧
    (¬ tokResolution <:+: raw → ¬ tokTime <:+: raw → header <:+: transformFragment raw) := by
  refine ⟨⟨?_, header_prefix_of_lacks raw⟩, ?_, ?_⟩
  · intro hp
    by_contra hn
    push_neg at hn
    exact not_header_prefix_of_both raw hn.1 hn.2 hp
  · rintro ⟨h1, h2⟩
    exact raw_prefix_of_both raw h1 h2
  · intro h1 _
    exact ((List.prefix_append header raw).trans
      (header_prefix_of_lacks raw (Or.inl h1))).isInfix

theorem header_injection_iff_witness :
    ¬ tokResolution <:+: imageSample ∧
    header ++ imageSample <+: transformFragment imageSample :=
  ⟨by decide, (header_injection_iff imageSample).1.mpr (Or.inl (by decide))⟩

/-- C5 as stated fails: the text `uniform float iTime;` contains the token
`iTime`, yet the header is put in front of it, so the transformed text does
not begin with the raw text. -/
theorem header_injected_despite_token :
    (tokResolution <:+: dupTime ∨ tokTime <:+: dupTime) ∧
    ¬ dupTime <+: transformFragment dupTime ∧
    transformFragment dupTime = header ++ dupTime ++ wrapper := by
  decide

/-- C5 (amended). For every raw text that contains both tokens `iResolution`
and `iTime`, the header is not injected: nothing is put in front and the
transformed text begins with the raw text itself. -/
theorem no_header_when_both_tokens (raw : Str)
    (h1 : tokResolution <:+: raw) (h2 : tokTime <:+: raw) :
    injectHeader raw = raw ∧ transformFragment raw = maybeWrapFragment raw ∧
    raw <+: transformFragment raw ∧ ¬ header ++ raw <+: transformFragment raw := by
  have hi := injectHeader_of_both h1 h2
  refine ⟨hi, ?_, raw_prefix_of_both raw h1 h2, not_header_prefix_of_both raw h1 h2⟩
  unfold transformFragment
  rw [hi]

theorem no_header_when_both_tokens_witness :
    tokResolution <:+: bothSample ∧ tokTime <:+: bothSample ∧
    transformFragment bothSample = maybeWrapFragment bothSample :=
  ⟨by decide, by decide,
   (no_header_when_both_tokens bothSample (by decide) (by decide)).2.1⟩

/-- C6 (entry-point pass-through). For every raw text containing `void main(`,
the transformed text is the raw text or the header followed by the raw text:
the raw text is its end, unaltered, and no wrapper is appended. Whether the
wrapper is appended does not depend on the header being in front. -/
theorem entry_point_pass_through (raw : Str) (h : tokMain <:+: raw) :
    (transformFragment raw = raw ∨ transformFragment raw = header ++ raw) ∧
    transformFragment raw = injectHeader raw ∧
    raw <:+ transformFragment raw ∧
    (∀ r : Str, find (header ++ r) tokMain = none ↔ find r tokMain = none) ∧
    (∀ r : Str, maybeWrapFragment (header ++ r) = header ++ maybeWrapFragment r) := by
  have ht : transformFragment raw = injectHeader raw :=
    maybeWrapFragment_eq_self ((infix_injectHeader_iff raw).mpr h)
  have hcase : injectHeader raw = raw ∨ injectHeader raw = header ++ raw := by
    unfold injectHeader
    split
    · exact Or.inr rfl
    · exact Or.inl rfl
  refine ⟨?_, ht, ?_, ?_, ?_⟩
  · rw [ht]; exact hcase
  · rw [ht]
    rcases hcase with hc | hc
    · rw [hc]
    · rw [hc]; exact List.suffix_append header raw
  · intro r
    rw [find_eq_none_iff, find_eq_none_iff, infix_header_append_iff]
  · intro r
    by_cases hr : tokMain <:+: r
    · rw [maybeWrapFragment_eq_self hr,
        maybeWrapFragment_eq_self ((infix_header_append_iff r).mpr hr)]
    · rw [maybeWrapFragment_eq_append hr,
        maybeWrapFragment_eq_append (fun hn => hr ((infix_header_append_iff r).mp hn)),
        List.append_assoc]

theorem entry_point_pass_through_witness :
    tokMain <:+: entrySample ∧ transformFragment entrySample = header ++ entrySample :=
  ⟨by decide, ((entry_point_pass_through entrySample (by decide)).2.1).trans (by decide)⟩

/-- C7 (exactly one wrapper). For every raw text without `void main(`, the
transformed text ends with the wrapper, which declares `fragColor` and calls
`mainImage(fragColor, gl_FragCoord.xy)`, and the whole transformed text has
exactly one occurrence of `void main(`. -/
theorem exactly_one_wrapper (raw : Str) (h : ¬ tokMain <:+: raw) :
    transformFragment raw = injectHeader raw ++ wrapper ∧
    wrapper <:+ transformFragment raw ∧
    countOcc tokMain (transformFragment raw) = 1 ∧
    "out vec4 fragColor;".toList <:+: wrapper ∧
    "mainImage(fragColor, gl_FragCoord.xy);".toList <:+: wrapper := by
  have hi : ¬ tokMain <:+: injectHeader raw := fun hn => h ((infix_injectHeader_iff raw).mp hn)
  have ht : transformFragment raw = injectHeader raw ++ wrapper :=
    maybeWrapFragment_eq_append hi
  refine ⟨ht, ?_, ?_, wrapper_declares_output, wrapper_calls_mainImage⟩
  · rw [ht]; exact List.suffix_append _ _
  · rw [ht, countOcc_append_wrapper, (countOcc_eq_zero_iff _ _).mpr hi]

theorem exactly_one_wrapper_witness :
    ¬ tokMain <:+: imageSample ∧ countOcc tokMain (transformFragment imageSample) = 1 :=
  ⟨by decide, (exactly_one_wrapper imageSample (by decide)).2.2.1⟩

/-! ## Facts about the backend calls -/

theorem glCreateProgram_cases (w : World) (g : GLState) :
    ((glCreateProgram w g).1 = 0 ∧ (glCreateProgram w g).2 = g) ∨
    ((glCreateProgram w g).1 ≠ 0 ∧ (glCreateProgram w g).1 ∉ g.programs ∧
      (glCreateProgram w g).2 = { g with programs := (glCreateProgram w g).1 :: g.programs }) := by
  unfold glCreateProgram
  by_cases h : w.newName g = 0 ∨ w.newName g ∈ g.shaders ∨ w.newName g ∈ g.programs
  · left
    simp [h]
  · right
    simp only [if_neg h]
    push_neg at h
    exact ⟨h.1, h.2.2, trivial⟩

theorem glCreateShader_programs (w : World) (g : GLState) :
    (glCreateShader w g).2.programs = g.programs := by
  unfold glCreateShader
  dsimp only
  split <;> rfl

theorem glDeleteShader_programs (g : GLState) (s : GLuint) :
    (glDeleteShader g s).programs = g.programs := by
  unfold glDeleteShader
  split <;> rfl

theorem filter_ne_cons_self (l : List GLuint) (p : GLuint) (h : p ∉ l) :
    (p :: l).filter (fun x => x ≠ p) = l := by
  have h1 : l.filter (fun x => decide (x ≠ p)) = l := by
    rw [List.filter_eq_self]
    intro a ha
    have : a ≠ p := fun e => h (e ▸ ha)
    simpa using this
  simp only [List.filter, ne_eq, not_true_eq_false, decide_False]
  exact h1

theorem glDeleteProgram_fresh (g : GLState) (p : GLuint) (h0 : p ≠ 0) (h : p ∉ g.programs) :
    (glDeleteProgram { g with programs := p :: g.programs } p).programs = g.programs := by
  unfold glDeleteProgram
  rw [if_neg h0]
  exact filter_ne_cons_self g.programs p h

theorem compile_programs (w : World) (t : ShaderType) (src : Str) (s0 : Sys) :
    (compile w t src s0).2.gl.programs = s0.gl.programs := by
  unfold compile
  dsimp only
  split
  · simp only [glDeleteShader_programs, glCreateShader_programs]
  · simp only [glCreateShader_programs]

theorem link_programs (w : World) (vs fs : GLuint) (s0 : Sys) :
    ((link w vs fs s0).1 = 0 → (link w vs fs s0).2.gl.programs = s0.gl.programs) ∧
    ((link w vs fs s0).1 ≠ 0 → (link w vs fs s0).1 ∉ s0.gl.programs ∧
      (link w vs fs s0).2.gl.programs = (link w vs fs s0).1 :: s0.gl.programs) := by
  unfold link
  by_cases hn : vs = 0 ∨ fs = 0
  · simp [hn]
  · simp only [if_neg hn, glDeleteShader_programs]
    rcases glCreateProgram_cases w s0.gl with ⟨h1, h2⟩ | ⟨h1, h2, h3⟩
    · simp [h1, h2, glDeleteProgram]
    · by_cases hl : w.linkStatus vs fs = true
      · simp [h1, hl, h2, h3]
      · simp only [h1, hl, ne_eq, not_false_eq_true, decide_True, Bool.and_false, Bool.not_false,
          ↓reduceIte, forall_const, not_true_eq_false, false_implies, and_true]
        rw [h3]
        exact glDeleteProgram_fresh s0.gl _ h1 h2

theorem createProgram_programs (w : World) (p : Path) (s0 : Sys) :
    ((createProgramFromFragmentFile w p s0).1 = 0 →
      (createProgramFromFragmentFile w p s0).2.gl.programs = s0.gl.programs) ∧
    ((createProgramFromFragmentFile w p s0).1 ≠ 0 →
      (createProgramFromFragmentFile w p s0).1 ∉ s0.gl.programs ∧
      (createProgramFromFragmentFile w p s0).2.gl.programs =
        (createProgramFromFragmentFile w p s0).1 :: s0.gl.programs) := by
  unfold createProgramFromFragmentFile
  cases hr : w.readFile p with
  | none => simp
  | some raw =>
    dsimp only
    have h := link_programs w (compile w ShaderType.vertex VERT_SRC s0).1
      (compile w ShaderType.fragment (cStr (maybeWrapFragment (injectHeader raw)))
        (compile w ShaderType.vertex VERT_SRC s0).2).1
      (compile w ShaderType.fragment (cStr (maybeWrapFragment (injectHeader raw)))
        (compile w ShaderType.vertex VERT_SRC s0).2).2
    rw [compile_programs, compile_programs] at h
    exact h

theorem compile_out (w : World) (t : ShaderType) (src : Str) (s0 : Sys) :
    s0.out <+: (compile w t src s0).2.out := by
  unfold compile
  dsimp only
  split
  · exact List.prefix_append _ _
  · exact List.prefix_refl _

theorem link_out (w : World) (vs fs : GLuint) (s0 : Sys) :
    s0.out <+: (link w vs fs s0).2.out := by
  unfold link
  split
  · exact List.prefix_refl _
  · dsimp only
    split
    · exact List.prefix_append _ _
    · exact List.prefix_refl _

theorem createProgram_out (w : World) (p : Path) (s0 : Sys) :
    s0.out <+: (createProgramFromFragmentFile w p s0).2.out := by
  unfold createProgramFromFragmentFile
  cases hr : w.readFile p with
  | none => exact List.prefix_append _ _
  | some raw =>
    dsimp only
    exact ((compile_out _ _ _ _).trans (compile_out _ _ _ _)).trans (link_out _ _ _ _)

/-! ## Facts about the controller -/

theorem reloadProgram_of_null (loc : GLuint → Str → GLint) (w : World) (c : Controller)
    (h : (createProgramFromFragmentFile w c.currentFrag c.sys).1 = 0) :
    reloadProgram loc w c =
      { c with sys := { (createProgramFromFragmentFile w c.currentFrag c.sys).2 with
          out := (createProgramFromFragmentFile w c.currentFrag c.sys).2.out ++
            [Output.keepingPrevious] } } := by
  unfold reloadProgram
  simp only [h, ne_eq, not_true_eq_false, ↓reduceIte]

theorem reloadProgram_of_handle (loc : GLuint → Str → GLint) (w : World) (c : Controller)
    (h : (createProgramFromFragmentFile w c.currentFrag c.sys).1 ≠ 0) :
    reloadProgram loc w c =
      { c with
        prog := (createProgramFromFragmentFile w c.currentFrag c.sys).1
        locRes := loc (createProgramFromFragmentFile w c.currentFrag c.sys).1 tokResolution
        locTime := loc (createProgramFromFragmentFile w c.currentFrag c.sys).1 tokTime
        locFrame := loc (createProgramFromFragmentFile w c.currentFrag c.sys).1 tokFrame
        locMouse := loc (createProgramFromFragmentFile w c.currentFrag c.sys).1 tokMouse
        sys := { gl := glDeleteProgram (createProgramFromFragmentFile w c.currentFrag c.sys).2.gl
                   c.prog,
                 out := (createProgramFromFragmentFile w c.currentFrag c.sys).2.out ++
                   [Output.reloaded c.currentFrag] } } := by
  unfold reloadProgram
  simp only [h, ne_eq, not_false_eq_true, ↓reduceIte]

theorem reloadProgram_selection (loc : GLuint → Str → GLint) (w : World) (c : Controller) :
    (reloadProgram loc w c).shaderFiles = c.shaderFiles ∧
    (reloadProgram loc w c).currentIndex = c.currentIndex ∧
    (reloadProgram loc w c).currentFrag = c.currentFrag ∧
    (reloadProgram loc w c).lastWrite = c.lastWrite := by
  by_cases h : (createProgramFromFragmentFile w c.currentFrag c.sys).1 = 0
  · rw [reloadProgram_of_null loc w c h]
    exact ⟨rfl, rfl, rfl, rfl⟩
  · rw [reloadProgram_of_handle loc w c h]
    exact ⟨rfl, rfl, rfl, rfl⟩

theorem reloadProgram_loaded (loc : GLuint → Str → GLint) (w : World) (c : Controller)
    (hc : Loaded c) : Loaded (reloadProgram loc w c) := by
  have hp := createProgram_programs w c.currentFrag c.sys
  by_cases h : (createProgramFromFragmentFile w c.currentFrag c.sys).1 = 0
  · rw [reloadProgram_of_null loc w c h]
    refine ⟨hc.1, ?_⟩
    show c.prog ∈ (createProgramFromFragmentFile w c.currentFrag c.sys).2.gl.programs
    rw [hp.1 h]
    exact hc.2
  · rw [reloadProgram_of_handle loc w c h]
    refine ⟨h, ?_⟩
    show (createProgramFromFragmentFile w c.currentFrag c.sys).1 ∈
      (glDeleteProgram (createProgramFromFragmentFile w c.currentFrag c.sys).2.gl c.prog).programs
    obtain ⟨hfresh, hprogs⟩ := hp.2 h
    have hne : (createProgramFromFragmentFile w c.currentFrag c.sys).1 ≠ c.prog :=
      fun e => hfresh (e ▸ hc.2)
    unfold glDeleteProgram
    rw [if_neg hc.1]
    simp only [hprogs, List.mem_filter, List.mem_cons, true_or, true_and]
    simpa using hne

theorem reloadProgram_locs (loc : GLuint → Str → GLint) (w : World) (c : Controller)
    (hc : LocsConsistent loc c) : LocsConsistent loc (reloadProgram loc w c) := by
  by_cases h : (createProgramFromFragmentFile w c.currentFrag c.sys).1 = 0
  · rw [reloadProgram_of_null loc w c h]
    exact hc
  · rw [reloadProgram_of_handle loc w c h]
    exact ⟨rfl, rfl, rfl, rfl⟩

theorem selectShader_loaded (loc : GLuint → Str → GLint) (w : World) (next : Nat)
    (c : Controller) (hc : Loaded c) : Loaded (selectShader loc w next c) := by
  unfold selectShader
  split
  · exact reloadProgram_loaded loc w _ hc
  · exact hc

theorem selectShader_locs (loc : GLuint → Str → GLint) (w : World) (next : Nat)
    (c : Controller) (hc : LocsConsistent loc c) :
    LocsConsistent loc (selectShader loc w next c) := by
  unfold selectShader
  split
  · exact reloadProgram_locs loc w _ hc
  · exact hc

theorem autoReload_loaded (loc : GLuint → Str → GLint) (w : World) (c : Controller)
    (hc : Loaded c) : Loaded (autoReload loc w c) := by
  unfold autoReload
  split
  · split
    · exact reloadProgram_loaded loc w _ hc
    · exact hc
  · exact hc

theorem autoReload_locs (loc : GLuint → Str → GLint) (w : World) (c : Controller)
    (hc : LocsConsistent loc c) : LocsConsistent loc (autoReload loc w c) := by
  unfold autoReload
  split
  · split
    · exact reloadProgram_locs loc w _ hc
    · exact hc
  · exact hc

theorem applyTransition_loaded (loc : GLuint → Str → GLint) (c : Controller) (t : Transition)
    (hc : Loaded c) : Loaded (applyTransition loc c t) := by
  cases t with
  | prev w => exact selectShader_loaded loc w (prevIndex c.currentIndex c.shaderFiles.length) c hc
  | next w => exact selectShader_loaded loc w (nextIndex c.currentIndex c.shaderFiles.length) c hc
  | forced w => exact reloadProgram_loaded loc w c hc
  | auto w => exact autoReload_loaded loc w c hc
  | render => exact hc

theorem applyTransition_locs (loc : GLuint → Str → GLint) (c : Controller) (t : Transition)
    (hc : LocsConsistent loc c) : LocsConsistent loc (applyTransition loc c t) := by
  cases t with
  | prev w => exact selectShader_locs loc w (prevIndex c.currentIndex c.shaderFiles.length) c hc
  | next w => exact selectShader_locs loc w (nextIndex c.currentIndex c.shaderFiles.length) c hc
  | forced w => exact reloadProgram_locs loc w c hc
  | auto w => exact autoReload_locs loc w c hc
  | render => exact hc

theorem run_loaded (loc : GLuint → Str → GLint) (ts : List Transition) (c : Controller)
    (hc : Loaded c) : Loaded (run loc c ts) := by
  induction ts generalizing c with
  | nil => exact hc
  | cons t ts ih => exact ih _ (applyTransition_loaded loc c t hc)

theorem run_locs (loc : GLuint → Str → GLint) (ts : List Transition) (c : Controller)
    (hc : LocsConsistent loc c) : LocsConsistent loc (run loc c ts) := by
  induction ts generalizing c with
  | nil => exact hc
  | cons t ts ih => exact ih _ (applyTransition_locs loc c t hc)

theorem run_append (loc : GLuint → Str → GLint) (c : Controller) (ts us : List Transition) :
    run loc c (ts ++ us) = run loc (run loc c ts) us := by
  unfold run
  rw [List.foldl_append]

theorem tick_eq_run (loc : GLuint → Str → GLint) (inp : TickInput) (c : Controller) :
    tick loc inp c = run loc c (tickTransitions inp) := by
  cases h1 : inp.keyPrev <;> cases h2 : inp.keyNext <;> cases h3 : inp.keyReload <;>
    simp [tick, tickTransitions, run, applyTransition, h1, h2, h3]

theorem runTicks_eq_run (loc : GLuint → Str → GLint) (inputs : List TickInput)
    (c : Controller) :
    runTicks loc c inputs = run loc c (inputs.map tickTransitions).flatten := by
  induction inputs generalizing c with
  | nil => rfl
  | cons inp inputs ih =>
    have e : runTicks loc c (inp :: inputs) = runTicks loc (tick loc inp c) inputs := rfl
    rw [e, ih, tick_eq_run, List.map_cons, List.flatten_cons, run_append]

theorem startup_loaded (loc : GLuint → Str → GLint) (w : World) (target : Path)
    (c : Controller) (h : startup loc w target = some c) :
    Loaded c ∧ LocsConsistent loc c := by
  unfold startup at h
  dsimp only at h
  split at h
  · exact absurd h (by simp)
  · split at h
    · exact absurd h (by simp)
    · next hp =>
      injection h with h
      subst h
      refine ⟨⟨hp, ?_⟩, rfl, rfl, rfl, rfl⟩
      have hprog := (createProgram_programs w
        ((collectShaderFiles w.status target).getD 0 []) Sys.init).2 hp
      show _ ∈ (createProgramFromFragmentFile w _ Sys.init).2.gl.programs
      rw [hprog.2]
      exact List.mem_cons_self _ _

/-! ## Claims about the controller -/

/-- A failed read, a failed stage compile or a failed link each make
`createProgramFromFragmentFile` return the null handle. -/
theorem createProgram_null_of_failure (w : World) (p : Path) (s0 : Sys) :
    (w.readFile p = none → (createProgramFromFragmentFile w p s0).1 = 0) ∧
    (w.compileStatus ShaderType.vertex VERT_SRC = false →
      (createProgramFromFragmentFile w p s0).1 = 0) ∧
    (∀ raw, w.readFile p = some raw →
      w.compileStatus ShaderType.fragment (cStr (transformFragment raw)) = false →
      (createProgramFromFragmentFile w p s0).1 = 0) ∧
    ((∀ vs fs, w.linkStatus vs fs = false) → (createProgramFromFragmentFile w p s0).1 = 0) := by
  refine ⟨?_, ?_, ?_, ?_⟩
  · intro h
    simp [createProgramFromFragmentFile, h]
  · intro h
    cases hr : w.readFile p with
    | none => simp [createProgramFromFragmentFile, hr]
    | some raw => simp [createProgramFromFragmentFile, hr, compile, h, link]
  · intro raw hr h
    simp [createProgramFromFragmentFile, hr, transformFragment] at h ⊢
    simp [compile, h, link]
  · intro h
    cases hr : w.readFile p with
    | none => simp [createProgramFromFragmentFile, hr]
    | some raw =>
      simp only [createProgramFromFragmentFile, hr, link, h]
      split <;> simp

/-- C1 (fallback guarantee). When the build of a reload attempt returns the null
handle, `reloadProgram` leaves the active handle and the four uniform locations
as they were, the set of program objects is unchanged (so the active program
still exists), and the output grows by diagnostics that end with the line
"Keeping previous program". -/
theorem reload_failure_keeps_program (loc : GLuint → Str → GLint) (w : World)
    (c : Controller) (hlive : Loaded c)
    (hfail : (createProgramFromFragmentFile w c.currentFrag c.sys).1 = 0) :
    (reloadProgram loc w c).prog = c.prog ∧
    (reloadProgram loc w c).locRes = c.locRes ∧
    (reloadProgram loc w c).locTime = c.locTime ∧
    (reloadProgram loc w c).locFrame = c.locFrame ∧
    (reloadProgram loc w c).locMouse = c.locMouse ∧
    (reloadProgram loc w c).sys.gl.programs = c.sys.gl.programs ∧
    c.prog ∈ (reloadProgram loc w c).sys.gl.programs ∧
    ∃ diag, (reloadProgram loc w c).sys.out = c.sys.out ++ diag ++ [Output.keepingPrevious] := by
  have hp := (createProgram_programs w c.currentFrag c.sys).1 hfail
  obtain ⟨diag, hd⟩ := createProgram_out w c.currentFrag c.sys
  rw [reloadProgram_of_null loc w c hfail]
  refine ⟨rfl, rfl, rfl, rfl, rfl, hp, ?_, diag, ?_⟩
  · show c.prog ∈ (createProgramFromFragmentFile w c.currentFrag c.sys).2.gl.programs
    rw [hp]
    exact hlive.2
  · show (createProgramFromFragmentFile w c.currentFrag c.sys).2.out ++ [Output.keepingPrevious]
      = c.sys.out ++ diag ++ [Output.keepingPrevious]
    rw [hd]

theorem reload_failure_keeps_program_witness :
    (createProgramFromFragmentFile brokenWorld demoController.currentFrag
      demoController.sys).1 = 0 ∧
    (reloadProgram demoLoc brokenWorld demoController).prog = 3 ∧
    (reloadProgram demoLoc brokenWorld demoController).locMouse = 6 :=
  ⟨by decide,
   (reload_failure_keeps_program demoLoc brokenWorld demoController (by decide) (by decide)).1,
   (reload_failure_keeps_program demoLoc brokenWorld demoController (by decide)
     (by decide)).2.2.2.2.1⟩

/-- C2 (active-handle invariant). After a successful start, the active program
handle is non-null after every finite sequence of transitions and after every
finite sequence of loop iterations, and the handle the render step binds is
the active one, hence never null. -/
theorem active_handle_never_null (loc : GLuint → Str → GLint) (w0 : World) (target : Path)
    (c0 : Controller) (hinit : startup loc w0 target = some c0) :
    (∀ ts : List Transition,
      (run loc c0 ts).prog ≠ 0 ∧
      (renderFrame (run loc c0 ts)).sys.gl.current = (run loc c0 ts).prog ∧
      (renderFrame (run loc c0 ts)).sys.gl.current ≠ 0) ∧
    (∀ inputs : List TickInput,
      (runTicks loc c0 inputs).prog ≠ 0 ∧
      ∀ inp : TickInput, (tick loc inp (runTicks loc c0 inputs)).sys.gl.current ≠ 0) := by
  have h0 := (startup_loaded loc w0 target c0 hinit).1
  have hrun : ∀ ts : List Transition, (run loc c0 ts).prog ≠ 0 :=
    fun ts => (run_loaded loc ts c0 h0).1
  refine ⟨fun ts => ⟨hrun ts, rfl, hrun ts⟩, fun inputs => ⟨?_, fun inp => ?_⟩⟩
  · rw [runTicks_eq_run]
    exact hrun _
  · have hl : Loaded (runTicks loc c0 inputs) := by
      rw [runTicks_eq_run]
      exact run_loaded loc _ c0 h0
    have e : (tick loc inp (runTicks loc c0 inputs)).sys.gl.current =
        (tick loc inp (runTicks loc c0 inputs)).prog := rfl
    rw [e, tick_eq_run]
    exact (run_loaded loc _ _ hl).1

theorem active_handle_never_null_witness :
    startup demoLoc demoWorld demoDir = some demoController ∧
    (run demoLoc demoController
      [Transition.next demoWorld, Transition.render, Transition.forced brokenWorld]).prog ≠ 0 :=
  ⟨by decide,
   ((active_handle_never_null demoLoc demoWorld demoDir demoController (by decide)).1
     [Transition.next demoWorld, Transition.render, Transition.forced brokenWorld]).1⟩

/-- C3 (uniform-location consistency). With `loc` the location query as a
function of handle and name: after a successful start and any finite sequence
of transitions the four stored locations are those of the active program; this
also holds after two forced reloads in a row; and a reload whose build returns a
handle installs that handle, removes the previous program object, keeps the
new one, and stores the four locations queried on the new handle. -/
theorem uniform_locations_consistent (loc : GLuint → Str → GLint) (w0 : World)
    (target : Path) (c0 : Controller) (hinit : startup loc w0 target = some c0)
    (ts : List Transition) :
    LocsConsistent loc (run loc c0 ts) ∧
    (∀ w : World,
      LocsConsistent loc (reloadProgram loc w (reloadProgram loc w (run loc c0 ts)))) ∧
    (∀ w : World,
      (createProgramFromFragmentFile w (run loc c0 ts).currentFrag (run loc c0 ts).sys).1 ≠ 0 →
      (reloadProgram loc w (run loc c0 ts)).prog =
        (createProgramFromFragmentFile w (run loc c0 ts).currentFrag (run loc c0 ts).sys).1 ∧
      (run loc c0 ts).prog ∉ (reloadProgram loc w (run loc c0 ts)).sys.gl.programs ∧
      (reloadProgram loc w (run loc c0 ts)).prog ∈
        (reloadProgram loc w (run loc c0 ts)).sys.gl.programs ∧
      (reloadProgram loc w (run loc c0 ts)).locRes =
        loc (reloadProgram loc w (run loc c0 ts)).prog tokResolution ∧
      (reloadProgram loc w (run loc c0 ts)).locTime =
        loc (reloadProgram loc w (run loc c0 ts)).prog tokTime ∧
      (reloadProgram loc w (run loc c0 ts)).locFrame =
        loc (reloadProgram loc w (run loc c0 ts)).prog tokFrame ∧
      (reloadProgram loc w (run loc c0 ts)).locMouse =
        loc (reloadProgram loc w (run loc c0 ts)).prog tokMouse) := by
  obtain ⟨h0, hl0⟩ := startup_loaded loc w0 target c0 hinit
  have hl : Loaded (run loc c0 ts) := run_loaded loc ts c0 h0
  have hc : LocsConsistent loc (run loc c0 ts) := run_locs loc ts c0 hl0
  refine ⟨hc, fun w => reloadProgram_locs loc w _ (reloadProgram_locs loc w _ hc), ?_⟩
  intro w hb
  have hlr := reloadProgram_loaded loc w _ hl
  have hcr := reloadProgram_locs loc w _ hc
  have e := reloadProgram_of_handle loc w (run loc c0 ts) hb
  refine ⟨by rw [e], ?_, hlr.2, hcr.1, hcr.2.1, hcr.2.2.1, hcr.2.2.2⟩
  rw [e]
  show (run loc c0 ts).prog ∉ (glDeleteProgram _ (run loc c0 ts).prog).programs
  unfold glDeleteProgram
  rw [if_neg hl.1]
  simp

theorem uniform_locations_consistent_witness :
    startup demoLoc demoWorld demoDir = some demoController ∧
    LocsConsistent demoLoc (run demoLoc demoController
      [Transition.forced demoWorld, Transition.forced demoWorld]) :=
  ⟨by decide,
   (uniform_locations_consistent demoLoc demoWorld demoDir demoController (by decide)
     [Transition.forced demoWorld, Transition.forced demoWorld]).1⟩

/-! ## Stage objects across one build -/

theorem glCreateShader_cases (w : World) (g : GLState) :
    ((glCreateShader w g).1 = 0 ∧ (glCreateShader w g).2 = g) ∨
    ((glCreateShader w g).1 ≠ 0 ∧ (glCreateShader w g).1 ∉ g.shaders ∧
      (glCreateShader w g).2 = { g with shaders := (glCreateShader w g).1 :: g.shaders }) := by
  unfold glCreateShader
  by_cases h : w.newName g = 0 ∨ w.newName g ∈ g.shaders ∨ w.newName g ∈ g.programs
  · left
    simp [h]
  · right
    simp only [if_neg h]
    push_neg at h
    exact ⟨h.1, h.2.1, trivial⟩

theorem glCreateProgram_shaders (w : World) (g : GLState) :
    (glCreateProgram w g).2.shaders = g.shaders := by
  unfold glCreateProgram
  dsimp only
  split <;> rfl

theorem glDeleteProgram_shaders (g : GLState) (p : GLuint) :
    (glDeleteProgram g p).shaders = g.shaders := by
  unfold glDeleteProgram
  split <;> rfl

theorem glDeleteShader_shaders (g : GLState) (s : GLuint) (h : s ≠ 0) :
    (glDeleteShader g s).shaders = g.shaders.filter (fun x => x ≠ s) := by
  unfold glDeleteShader
  rw [if_neg h]

theorem compile_shaders (w : World) (t : ShaderType) (src : Str) (s0 : Sys) :
    ((compile w t src s0).1 = 0 → (compile w t src s0).2.gl.shaders = s0.gl.shaders) ∧
    ((compile w t src s0).1 ≠ 0 → (compile w t src s0).1 ∉ s0.gl.shaders ∧
      (compile w t src s0).2.gl.shaders = (compile w t src s0).1 :: s0.gl.shaders) := by
  unfold compile
  rcases glCreateShader_cases w s0.gl with ⟨h1, h2⟩ | ⟨h1, h2, h3⟩
  · simp [h1, h2, glDeleteShader]
  · by_cases hl : w.compileStatus t src = true
    · simp [h1, hl, h2, h3]
    · simp only [h1, hl, ne_eq, not_false_eq_true, decide_True, Bool.and_false, Bool.not_false,
        ↓reduceIte, forall_const, not_true_eq_false, false_implies, and_true]
      rw [h3, glDeleteShader_shaders _ _ h1]
      exact filter_ne_cons_self s0.gl.shaders _ h2

theorem link_shaders (w : World) (vs fs : GLuint) (s0 : Sys) :
    ((vs = 0 ∨ fs = 0) → (link w vs fs s0).2.gl.shaders = s0.gl.shaders) ∧
    (vs ≠ 0 → fs ≠ 0 → (link w vs fs s0).2.gl.shaders =
      (s0.gl.shaders.filter (fun x => x ≠ vs)).filter (fun x => x ≠ fs)) := by
  unfold link
  constructor
  · intro h
    rw [if_pos h]
  · intro hv hf
    have hn : ¬ (vs = 0 ∨ fs = 0) := by tauto
    rw [if_neg hn]
    dsimp only
    rw [glDeleteShader_shaders _ _ hf, glDeleteShader_shaders _ _ hv]
    split
    · simp only [glDeleteProgram_shaders, glCreateProgram_shaders]
    · simp only [glCreateProgram_shaders]

/-- The stage objects after one call of `createProgramFromFragmentFile` on a
readable file, by outcome of the two compiles: when both stages compile, or
neither does, the set is the one before the call; when exactly one stage
compiles, its object stays. -/
theorem createProgram_shaders (w : World) (p : Path) (s0 : Sys) (raw : Str)
    (hr : w.readFile p = some raw) :
    (∀ vs fs, (compile w ShaderType.vertex VERT_SRC s0).1 = vs →
      (compile w ShaderType.fragment (cStr (transformFragment raw))
        (compile w ShaderType.vertex VERT_SRC s0).2).1 = fs →
      (vs ≠ 0 → fs ≠ 0 →
        (createProgramFromFragmentFile w p s0).2.gl.shaders = s0.gl.shaders) ∧
      (vs = 0 → fs = 0 →
        (createProgramFromFragmentFile w p s0).2.gl.shaders = s0.gl.shaders) ∧
      (vs ≠ 0 → fs = 0 →
        vs ∉ s0.gl.shaders ∧
        (createProgramFromFragmentFile w p s0).1 = 0 ∧
        (createProgramFromFragmentFile w p s0).2.gl.shaders = vs :: s0.gl.shaders) ∧
      (vs = 0 → fs ≠ 0 →
        fs ∉ s0.gl.shaders ∧
        (createProgramFromFragmentFile w p s0).1 = 0 ∧
        (createProgramFromFragmentFile w p s0).2.gl.shaders = fs :: s0.gl.shaders)) := by
  intro vs fs hvs hfs
  have e : createProgramFromFragmentFile w p s0 =
      link w vs fs (compile w ShaderType.fragment (cStr (transformFragment raw))
        (compile w ShaderType.vertex VERT_SRC s0).2).2 := by
    unfold createProgramFromFragmentFile
    rw [hr]
    dsimp only
    rw [← hvs, ← hfs]
    rfl
  have c1 := compile_shaders w ShaderType.vertex VERT_SRC s0
  have c2 := compile_shaders w ShaderType.fragment (cStr (transformFragment raw))
    (compile w ShaderType.vertex VERT_SRC s0).2
  rw [hvs] at c1
  rw [hfs] at c2
  have l := link_shaders w vs fs (compile w ShaderType.fragment (cStr (transformFragment raw))
        (compile w ShaderType.vertex VERT_SRC s0).2).2
  rw [e]
  refine ⟨?_, ?_, ?_, ?_⟩
  · intro hv hf
    obtain ⟨hv1, hv2⟩ := c1.2 hv
    obtain ⟨hf1, hf2⟩ := c2.2 hf
    rw [l.2 hv hf, hf2, hv2]
    rw [hv2] at hf1
    have hne : fs ≠ vs := fun e => hf1 (e ▸ List.mem_cons_self _ _)
    have hfS : fs ∉ s0.gl.shaders := fun h => hf1 (List.mem_cons_of_mem _ h)
    have e1 : (fs :: vs :: s0.gl.shaders).filter (fun x => x ≠ vs) = fs :: s0.gl.shaders := by
      rw [List.filter_cons_of_pos (by simpa using hne), filter_ne_cons_self _ _ hv1]
    rw [e1, filter_ne_cons_self _ _ hfS]
  · intro hv hf
    rw [l.1 (Or.inl hv), c2.1 hf, c1.1 hv]
  · intro hv hf
    obtain ⟨hv1, hv2⟩ := c1.2 hv
    refine ⟨hv1, ?_, ?_⟩
    · simp [link, hf]
    · rw [l.1 (Or.inr hf), c2.1 hf, hv2]
  · intro hv hf
    obtain ⟨hf1, hf2⟩ := c2.2 hf
    rw [c1.1 hv] at hf1 hf2
    refine ⟨hf1, ?_, ?_⟩
    · simp [link, hv]
    · rw [l.1 (Or.inl hv), hf2]

/-! ## Text passed to the compiler -/

theorem cStr_eq_self (s : Str) (h : ∀ c ∈ s, c ≠ Char.ofNat 0) : cStr s = s := by
  unfold cStr
  rw [List.takeWhile_eq_self_iff]
  intro c hc
  simpa using h c hc

theorem header_no_nul : ∀ c ∈ header, c ≠ Char.ofNat 0 := by decide

theorem wrapper_no_nul : ∀ c ∈ wrapper, c ≠ Char.ofNat 0 := by decide

/-- For a text without NUL characters the compiler reads the whole of
`transformFragment raw`. -/
theorem cStr_transformFragment (raw : Str) (h : ∀ c ∈ raw, c ≠ Char.ofNat 0) :
    cStr (transformFragment raw) = transformFragment raw := by
  apply cStr_eq_self
  intro c hc
  have hi : ∀ c ∈ injectHeader raw, c ≠ Char.ofNat 0 := by
    intro c hc
    unfold injectHeader at hc
    split at hc
    · rcases List.mem_append.mp hc with h1 | h1
      · exact header_no_nul c h1
      · exact h c h1
    · exact h c hc
  unfold transformFragment maybeWrapFragment at hc
  split at hc
  · exact hi c hc
  · rcases List.mem_append.mp hc with h1 | h1
    · exact hi c h1
    · exact wrapper_no_nul c h1

/-! ## Claims about file discovery and switching -/

theorem scanEntries_eq (es : List DirEntry) (out : List Path) :
    scanEntries es out = out ++
      (es.filter (fun e => e.isRegularFile && isShaderExtension (extension e.path))).map
        DirEntry.path := by
  induction es generalizing out with
  | nil => simp [scanEntries]
  | cons e es ih =>
    unfold scanEntries
    cases hr : e.isRegularFile <;> cases hx : isShaderExtension (extension e.path) <;>
      simp [ih, hr, hx, List.filter_cons]

theorem isShaderExtension_iff (ext : Str) :
    isShaderExtension ext = true ↔
      (ext = ".frag".toList ∨ ext = ".glsl".toList ∨ ext = ".fs".toList) := by
  unfold isShaderExtension
  simp only [Bool.or_eq_true, decide_eq_true_eq, or_assoc]

theorem sample_listing_result : collectShaderFiles demoWorld.status demoDir = [pathA, pathB] := by
  decide

/-- C8 (shader set resolver on a directory). For a directory whose entries
have distinct paths, `collectShaderFiles` returns a list in ascending path
order without duplicates whose elements are exactly the paths of the entries
that are regular files with extension `.frag`, `.glsl` or `.fs`; the listing
`b.frag`, `a.glsl`, `c.txt` gives `[a.glsl, b.frag]`. -/
theorem collectShaderFiles_directory (status : Path → FileStatus) (input : Path)
    (entries : List DirEntry) (hdir : status input = FileStatus.directory entries)
    (hnd : (entries.map DirEntry.path).Nodup) :
    (collectShaderFiles status input).Sorted (· ≤ ·) ∧
    (collectShaderFiles status input).Sorted (· < ·) ∧
    (collectShaderFiles status input).Nodup ∧
    (∀ p : Path, p ∈ collectShaderFiles status input ↔
      ∃ e ∈ entries, e.path = p ∧ e.isRegularFile = true ∧
        (extension p = ".frag".toList ∨ extension p = ".glsl".toList ∨
          extension p = ".fs".toList)) ∧
    collectShaderFiles demoWorld.status demoDir = [pathA, pathB] := by
  have hc : collectShaderFiles status input = sortPaths (scanEntries entries []) := by
    unfold collectShaderFiles
    rw [hdir]
  have hperm : (sortPaths (scanEntries entries [])).Perm (scanEntries entries []) :=
    List.perm_insertionSort _ _
  have hsorted : (sortPaths (scanEntries entries [])).Sorted (· ≤ ·) :=
    List.sorted_insertionSort _ _
  have hsub : (scanEntries entries []).Sublist (entries.map DirEntry.path) := by
    rw [scanEntries_eq, List.nil_append]
    exact (List.filter_sublist _).map _
  have hnodup : (sortPaths (scanEntries entries [])).Nodup :=
    hperm.nodup_iff.mpr (hnd.sublist hsub)
  rw [hc]
  refine ⟨hsorted, hsorted.lt_of_le hnodup, hnodup, ?_, sample_listing_result⟩
  intro p
  rw [hperm.mem_iff, scanEntries_eq, List.nil_append, List.mem_map]
  constructor
  · rintro ⟨e, he, rfl⟩
    rw [List.mem_filter, Bool.and_eq_true, isShaderExtension_iff] at he
    exact ⟨e, he.1, rfl, he.2.1, he.2.2⟩
  · rintro ⟨e, he, rfl, hr, hx⟩
    refine ⟨e, ?_, rfl⟩
    rw [List.mem_filter, Bool.and_eq_true, isShaderExtension_iff]
    exact ⟨he, hr, hx⟩

theorem collectShaderFiles_directory_witness :
    (demoListing.map DirEntry.path).Nodup ∧
    (collectShaderFiles demoWorld.status demoDir).Sorted (· < ·) :=
  ⟨by decide,
   (collectShaderFiles_directory demoWorld.status demoDir demoListing (by decide)
     (by decide)).2.1⟩

theorem prevIndex_eq (i n : Nat) (hi : i < n) (hn : n < 2 ^ 63) :
    prevIndex i n = (i + n - 1) % n := by
  unfold prevIndex sizeT
  have e : ((i + n) % 2 ^ 64 + 2 ^ 64 - 1) % 2 ^ 64 = i + n - 1 := by
    norm_num at hn ⊢
    omega
  rw [e]

theorem nextIndex_eq (i n : Nat) (hi : i < n) (hn : n < 2 ^ 63) :
    nextIndex i n = (i + 1) % n := by
  unfold nextIndex sizeT
  have e : (i + 1) % 2 ^ 64 = i + 1 := by
    norm_num at hn ⊢
    omega
  rw [e]

theorem selectShader_same (loc : GLuint → Str → GLint) (w : World) (c : Controller) :
    selectShader loc w c.currentIndex c = c := by
  unfold selectShader
  simp

theorem selectShader_other (loc : GLuint → Str → GLint) (w : World) (next : Nat)
    (c : Controller) (h : next ≠ c.currentIndex) :
    selectShader loc w next c =
      reloadProgram loc w
        { c with
          currentIndex := next
          currentFrag := c.shaderFiles.getD next []
          lastWrite := lastWriteOrMin w (c.shaderFiles.getD next []) } ∧
    (selectShader loc w next c).currentIndex = next ∧
    (selectShader loc w next c).currentFrag = c.shaderFiles.getD next [] := by
  have e : selectShader loc w next c =
      reloadProgram loc w
        { c with
          currentIndex := next
          currentFrag := c.shaderFiles.getD next []
          lastWrite := lastWriteOrMin w (c.shaderFiles.getD next []) } := by
    unfold selectShader
    rw [if_pos h]
  refine ⟨e, ?_, ?_⟩
  · rw [e]
    exact (reloadProgram_selection loc w _).2.1
  · rw [e]
    exact (reloadProgram_selection loc w _).2.2.1

/-- C9 (cyclic switching). For a candidate list of length `n` with `0 < n`
(and `n < 2 ^ 63`, as every vector has) and a current index `i < n`: "previous"
computes `(i + n - 1) % n` and "next" computes `(i + 1) % n`, both below `n`;
previous takes `0` to `n - 1` and next takes `n - 1` to `0`; for `n = 3`
previous from `0` gives `2` and next from `2` gives `0`; and a switch key
leaves the whole state as it is when the computed index equals the current
one, and otherwise selects the computed index and its path and performs a
reload attempt. -/
theorem cyclic_switching (n i : Nat) (hn : 0 < n) (hi : i < n) (hsize : n < 2 ^ 63) :
    prevIndex i n = (i + n - 1) % n ∧ nextIndex i n = (i + 1) % n ∧
    prevIndex i n < n ∧ nextIndex i n < n ∧
    prevIndex 0 n = n - 1 ∧ nextIndex (n - 1) n = 0 ∧
    prevIndex 0 3 = 2 ∧ nextIndex 2 3 = 0 ∧
    ∀ (loc : GLuint → Str → GLint) (w : World) (c : Controller),
      c.shaderFiles.length = n → c.currentIndex = i →
      (prevIndex i n = i → switchPrev loc w c = c) ∧
      (nextIndex i n = i → switchNext loc w c = c) ∧
      (prevIndex i n ≠ i →
        switchPrev loc w c =
          reloadProgram loc w
            { c with
              currentIndex := prevIndex i n
              currentFrag := c.shaderFiles.getD (prevIndex i n) []
              lastWrite := lastWriteOrMin w (c.shaderFiles.getD (prevIndex i n) []) } ∧
        (switchPrev loc w c).currentIndex = prevIndex i n ∧
        c.shaderFiles[prevIndex i n]? = some (switchPrev loc w c).currentFrag) ∧
      (nextIndex i n ≠ i →
        switchNext loc w c =
          reloadProgram loc w
            { c with
              currentIndex := nextIndex i n
              currentFrag := c.shaderFiles.getD (nextIndex i n) []
              lastWrite := lastWriteOrMin w (c.shaderFiles.getD (nextIndex i n) []) } ∧
        (switchNext loc w c).currentIndex = nextIndex i n ∧
        c.shaderFiles[nextIndex i n]? = some (switchNext loc w c).currentFrag) := by
  have hp := prevIndex_eq i n hi hsize
  have hx := nextIndex_eq i n hi hsize
  have hpl : prevIndex i n < n := by rw [hp]; exact Nat.mod_lt _ hn
  have hxl : nextIndex i n < n := by rw [hx]; exact Nat.mod_lt _ hn
  have hp0 : prevIndex 0 n = n - 1 := by
    rw [prevIndex_eq 0 n hn hsize, Nat.zero_add]
    exact Nat.mod_eq_of_lt (by omega)
  have hxn : nextIndex (n - 1) n = 0 := by
    rw [nextIndex_eq (n - 1) n (by omega) hsize, Nat.sub_add_cancel hn, Nat.mod_self]
  refine ⟨hp, hx, hpl, hxl, hp0, hxn, by decide, by decide, ?_⟩
  intro loc w c hlen hcur
  have hget : ∀ k, k < n → c.shaderFiles[k]? = some (c.shaderFiles.getD k []) := by
    intro k hk
    rw [List.getD_eq_getElem?_getD, List.getElem?_eq_getElem (by omega)]
    rfl
  refine ⟨?_, ?_, ?_, ?_⟩
  · intro h
    unfold switchPrev
    rw [hlen, hcur, h, ← hcur]
    exact selectShader_same loc w c
  · intro h
    unfold switchNext
    rw [hlen, hcur, h, ← hcur]
    exact selectShader_same loc w c
  · intro h
    have hs := selectShader_other loc w (prevIndex i n) c (by rw [hcur]; exact h)
    unfold switchPrev
    rw [hlen, hcur]
    exact ⟨hs.1, hs.2.1, by rw [hs.2.2]; exact hget _ hpl⟩
  · intro h
    have hs := selectShader_other loc w (nextIndex i n) c (by rw [hcur]; exact h)
    unfold switchNext
    rw [hlen, hcur]
    exact ⟨hs.1, hs.2.1, by rw [hs.2.2]; exact hget _ hxl⟩

theorem cyclic_switching_witness :
    prevIndex 0 3 = (0 + 3 - 1) % 3 ∧ nextIndex 0 3 = (0 + 1) % 3 :=
  ⟨(cyclic_switching 3 0 (by decide) (by decide) (by decide)).1,
   (cyclic_switching 3 0 (by decide) (by decide) (by decide)).2.1⟩

/-- C10 (evaluation at the failing input). On a fresh context, with a file
whose fragment stage does not compile while the vertex stage does,
`createProgramFromFragmentFile` returns the null handle and leaves the vertex
stage object `1` alive: the set of stage objects after the call is not the set
before it. -/
theorem stage_object_retained_after_fragment_failure :
    Sys.init.gl.shaders = [] ∧
    (createProgramFromFragmentFile brokenWorld pathA Sys.init).1 = 0 ∧
    (createProgramFromFragmentFile brokenWorld pathA Sys.init).2.gl.shaders = [1] := by
  decide

end ShaderHub
